import Mathlib

/-!
# Verification of the portfolio_card repository

A shallow embedding, in Lean 4, of the core logic of the `portfolio_card`
client-side business-card application:

* the share codec (`src/js/utils.js` `encodeObj`/`decodeObj`,
  `src/js/storage.js` `buildShareObj`, `src/js/share.js` `generateQRCode`),
* the validation helpers (`formatName`, `isHexColor`, `pickColor`,
  `formatPhone`, `parsePrettyPhone10` in `src/js/utils.js`),
* the contact store (`addContact`, `removeContact` in `src/js/storage.js`),
* the image-crop state machine (settings module, `setupCropListeners`).

JavaScript strings are modeled as lists of Unicode code points (`JStr`);
byte sequences as lists of `Nat` below 256.  JavaScript platform
primitives used by the repository (`btoa`/`atob`, the
`unescape(encodeURIComponent(.))` UTF-8 idiom, `JSON.stringify`/`JSON.parse`
restricted to the share-object shape, `String.prototype.trim`/`toLowerCase`
on the relevant character ranges) are embedded following their
ECMA-262 / WHATWG specifications.
-/

/-- JavaScript strings are modeled as lists of Unicode code points. -/
abbrev JStr := List Nat

/-- Code points of a Lean string literal, used to transcribe the
JavaScript string literals appearing in the source. -/
def strToCodes (s : String) : JStr := s.data.map Char.toNat

/-- A Unicode scalar value: what a well-formed JavaScript string
(one with no lone UTF-16 surrogates) holds at each position. -/
def ValidCodepoint (n : Nat) : Prop := n < 55296 ∨ (57344 ≤ n ∧ n < 1114112)

instance (n : Nat) : Decidable (ValidCodepoint n) := by
  unfold ValidCodepoint; infer_instance

/-- A well-formed JavaScript string: every element is a Unicode scalar
value.  `encodeURIComponent` throws a `URIError` on strings with lone
surrogates, so the share pipeline only ever succeeds on such strings. -/
def ValidStr (s : JStr) : Prop := ∀ n ∈ s, ValidCodepoint n

instance (s : JStr) : Decidable (ValidStr s) := by
  unfold ValidStr; infer_instance

theorem validCodepoint_toNat (c : Char) : ValidCodepoint c.toNat := by
  have h := c.valid
  unfold ValidCodepoint
  rcases h with h | ⟨h1, h2⟩
  · left; exact h
  · right; exact ⟨h1, h2⟩

theorem validStr_strToCodes (s : String) : ValidStr (strToCodes s) := by
  intro n hn
  simp only [strToCodes, List.mem_map] at hn
  obtain ⟨c, _, rfl⟩ := hn
  exact validCodepoint_toNat c

/-! ## Base64 (`btoa` / `atob`)

`src/js/utils.js` transports the serialized card through `btoa` and
`atob`.  `btoa` maps a sequence of bytes (a JS string of code points
below 256) to the RFC 4648 base64 alphabet with `=` padding; `atob` is
the WHATWG forgiving-base64 decoder (applied here to the unpadded-bit
discarding behaviour; whitespace stripping is irrelevant because encoded
tokens contain none). -/

/-- ASCII code of the `k`-th character of the base64 alphabet
`A–Z a–z 0–9 + /`. -/
def b64CharOf (k : Nat) : Nat :=
  if k < 26 then 65 + k
  else if k < 52 then 97 + (k - 26)
  else if k < 62 then 48 + (k - 52)
  else if k = 62 then 43
  else 47

/-- Index of an ASCII code in the base64 alphabet, `none` when the
character is not in the alphabet. -/
def b64ValOf (c : Nat) : Option Nat :=
  if 65 ≤ c ∧ c ≤ 90 then some (c - 65)
  else if 97 ≤ c ∧ c ≤ 122 then some (26 + (c - 97))
  else if 48 ≤ c ∧ c ≤ 57 then some (52 + (c - 48))
  else if c = 43 then some 62
  else if c = 47 then some 63
  else none

/-- `btoa`: base64-encode a byte sequence (code 61 is `=` padding). -/
def btoa : List Nat → JStr
  | [] => []
  | [b1] => [b64CharOf (b1 / 4), b64CharOf (b1 % 4 * 16), 61, 61]
  | [b1, b2] =>
    [b64CharOf (b1 / 4), b64CharOf (b1 % 4 * 16 + b2 / 16),
     b64CharOf (b2 % 16 * 4), 61]
  | b1 :: b2 :: b3 :: rest =>
    b64CharOf (b1 / 4) :: b64CharOf (b1 % 4 * 16 + b2 / 16) ::
    b64CharOf (b2 % 16 * 4 + b3 / 64) :: b64CharOf (b3 % 64) :: btoa rest

/-- `atob`: decode a base64 string back to bytes.  Padding (`=`, code 61)
is accepted only in the final quantum; left-over bits are discarded as in
WHATWG forgiving-base64. -/
def atob : JStr → Option (List Nat)
  | [] => some []
  | c1 :: c2 :: c3 :: c4 :: rest =>
    if c3 = 61 ∧ c4 = 61 ∧ rest = [] then
      match b64ValOf c1, b64ValOf c2 with
      | some v1, some v2 => some [v1 * 4 + v2 / 16]
      | _, _ => none
    else if c4 = 61 ∧ rest = [] then
      match b64ValOf c1, b64ValOf c2, b64ValOf c3 with
      | some v1, some v2, some v3 =>
        some [v1 * 4 + v2 / 16, v2 % 16 * 16 + v3 / 4]
      | _, _, _ => none
    else
      match b64ValOf c1, b64ValOf c2, b64ValOf c3, b64ValOf c4, atob rest with
      | some v1, some v2, some v3, some v4, some tail =>
        some ((v1 * 4 + v2 / 16) :: (v2 % 16 * 16 + v3 / 4) ::
              (v3 % 4 * 64 + v4) :: tail)
      | _, _, _, _, _ => none
  | _ => none

theorem b64ValOf_b64CharOf : ∀ k < 64, b64ValOf (b64CharOf k) = some k := by
  decide

theorem b64CharOf_ne_eq (k : Nat) : b64CharOf k ≠ 61 := by
  unfold b64CharOf
  split_ifs <;> omega

theorem atob_btoa : ∀ l : List Nat, (∀ b ∈ l, b < 256) → atob (btoa l) = some l
  | [], _ => rfl
  | [b1], h => by
    have h1 : b1 < 256 := h b1 (by simp)
    simp only [btoa, atob, and_self, and_true, if_true]
    rw [b64ValOf_b64CharOf (b1 / 4) (by omega),
        b64ValOf_b64CharOf (b1 % 4 * 16) (by omega)]
    simp only [Option.some.injEq, List.cons.injEq, and_true]
    omega
  | [b1, b2], h => by
    have h1 : b1 < 256 := h b1 (by simp)
    have h2 : b2 < 256 := h b2 (by simp)
    simp only [btoa, atob, b64CharOf_ne_eq, false_and, if_false, and_self,
      and_true, if_true]
    rw [b64ValOf_b64CharOf (b1 / 4) (by omega),
        b64ValOf_b64CharOf (b1 % 4 * 16 + b2 / 16) (by omega),
        b64ValOf_b64CharOf (b2 % 16 * 4) (by omega)]
    simp only [Option.some.injEq, List.cons.injEq, and_true]
    omega
  | b1 :: b2 :: b3 :: rest, h => by
    have h1 : b1 < 256 := h b1 (by simp)
    have h2 : b2 < 256 := h b2 (by simp)
    have h3 : b3 < 256 := h b3 (by simp)
    have ih := atob_btoa rest (fun b hb => h b (by simp [hb]))
    simp only [btoa, atob, b64CharOf_ne_eq, false_and, and_false, if_false]
    rw [b64ValOf_b64CharOf (b1 / 4) (by omega),
        b64ValOf_b64CharOf (b1 % 4 * 16 + b2 / 16) (by omega),
        b64ValOf_b64CharOf (b2 % 16 * 4 + b3 / 64) (by omega),
        b64ValOf_b64CharOf (b3 % 64) (by omega), ih]
    simp only [Option.some.injEq, List.cons.injEq]
    refine ⟨by omega, by omega, by omega, trivial⟩

/-! ## UTF-8 (`unescape(encodeURIComponent(.))` and its inverse)

`encodeObj` turns the JSON text into a byte string with
`unescape(encodeURIComponent(s))`: the standard JavaScript idiom whose
result is exactly the UTF-8 encoding of `s`, one byte per character.
`decodeObj` inverts it with `decodeURIComponent(escape(b))`, which is a
strict UTF-8 decode (throwing `URIError`, i.e. `none` here, on malformed
input). -/

/-- UTF-8 encoding of a single Unicode scalar value. -/
def utf8Char (n : Nat) : List Nat :=
  if n < 128 then [n]
  else if n < 2048 then [192 + n / 64, 128 + n % 64]
  else if n < 65536 then
    [224 + n / 4096, 128 + n / 64 % 64, 128 + n % 64]
  else
    [240 + n / 262144, 128 + n / 4096 % 64, 128 + n / 64 % 64, 128 + n % 64]

/-- UTF-8 encoding of a string of code points. -/
def utf8Encode : JStr → List Nat
  | [] => []
  | n :: rest => utf8Char n ++ utf8Encode rest

/-- Decode one 2-byte UTF-8 sequence after leading byte `b1`. -/
def utf8Dec2 (b1 : Nat) : List Nat → Option (Nat × List Nat)
  | b2 :: rest =>
    if 128 ≤ b2 ∧ b2 < 192 ∧ 128 ≤ (b1 - 192) * 64 + (b2 - 128) then
      some ((b1 - 192) * 64 + (b2 - 128), rest)
    else none
  | [] => none

/-- Decode one 3-byte UTF-8 sequence after leading byte `b1`
(rejecting overlong forms and surrogates). -/
def utf8Dec3 (b1 : Nat) : List Nat → Option (Nat × List Nat)
  | b2 :: b3 :: rest =>
    if (128 ≤ b2 ∧ b2 < 192) ∧ (128 ≤ b3 ∧ b3 < 192) ∧
        2048 ≤ (b1 - 224) * 4096 + (b2 - 128) * 64 + (b3 - 128) ∧
        ¬(55296 ≤ (b1 - 224) * 4096 + (b2 - 128) * 64 + (b3 - 128) ∧
          (b1 - 224) * 4096 + (b2 - 128) * 64 + (b3 - 128) < 57344) then
      some ((b1 - 224) * 4096 + (b2 - 128) * 64 + (b3 - 128), rest)
    else none
  | _ => none

/-- Decode one 4-byte UTF-8 sequence after leading byte `b1`
(rejecting overlong and out-of-range forms). -/
def utf8Dec4 (b1 : Nat) : List Nat → Option (Nat × List Nat)
  | b2 :: b3 :: b4 :: rest =>
    if (128 ≤ b2 ∧ b2 < 192) ∧ (128 ≤ b3 ∧ b3 < 192) ∧ (128 ≤ b4 ∧ b4 < 192) ∧
        65536 ≤ (b1 - 240) * 262144 + (b2 - 128) * 4096 + (b3 - 128) * 64 +
          (b4 - 128) ∧
        (b1 - 240) * 262144 + (b2 - 128) * 4096 + (b3 - 128) * 64 +
          (b4 - 128) < 1114112 then
      some ((b1 - 240) * 262144 + (b2 - 128) * 4096 + (b3 - 128) * 64 +
        (b4 - 128), rest)
    else none
  | _ => none

/-- Decode a single UTF-8 sequence from the front of a byte list,
returning the code point and the remaining bytes. -/
def utf8DecChar : List Nat → Option (Nat × List Nat)
  | [] => none
  | b1 :: rest =>
    if b1 < 128 then some (b1, rest)
    else if b1 < 192 then none
    else if b1 < 224 then utf8Dec2 b1 rest
    else if b1 < 240 then utf8Dec3 b1 rest
    else if b1 < 248 then utf8Dec4 b1 rest
    else none

/-- Strict UTF-8 decoding of a byte sequence (rejecting malformed input,
as `decodeURIComponent(escape(.))` does).  Each step consumes at least
one byte, so `fuel = length` always suffices in `utf8Decode`. -/
def utf8DecodeAux : Nat → List Nat → Option JStr
  | _, [] => some []
  | 0, _ :: _ => none
  | fuel + 1, b :: bs =>
    match utf8DecChar (b :: bs) with
    | some (n, rest) => (utf8DecodeAux fuel rest).map (n :: ·)
    | none => none

/-- Strict UTF-8 decoding of a byte sequence. -/
def utf8Decode (bs : List Nat) : Option JStr := utf8DecodeAux bs.length bs

theorem utf8Char_lt (n : Nat) (hn : n < 1114112) : ∀ b ∈ utf8Char n, b < 256 := by
  intro b hb
  unfold utf8Char at hb
  split_ifs at hb <;> simp only [List.mem_cons, List.mem_singleton,
    List.not_mem_nil, or_false] at hb <;> omega

theorem utf8Encode_lt (s : JStr) (hs : ValidStr s) :
    ∀ b ∈ utf8Encode s, b < 256 := by
  induction s with
  | nil => intro b hb; simp [utf8Encode] at hb
  | cons c rest ih =>
    intro b hb
    simp only [utf8Encode, List.mem_append] at hb
    rcases hb with hb | hb
    · have hc := hs c (by simp)
      rcases hc with hc | ⟨_, hc2⟩
      · exact utf8Char_lt c (by omega) b hb
      · exact utf8Char_lt c (by omega) b hb
    · exact ih (fun n hn => hs n (by simp [hn])) b hb

theorem utf8Char_length_pos (n : Nat) : 0 < (utf8Char n).length := by
  unfold utf8Char
  split_ifs <;> simp

theorem utf8DecChar_char (n : Nat) (hn : ValidCodepoint n) (rest : List Nat) :
    utf8DecChar (utf8Char n ++ rest) = some (n, rest) := by
  rcases Nat.lt_or_ge n 128 with h1 | h1
  · rw [utf8Char, if_pos h1, List.singleton_append, utf8DecChar, if_pos h1]
  · rcases Nat.lt_or_ge n 2048 with h2 | h2
    · rw [utf8Char, if_neg (by omega), if_pos h2, List.cons_append,
        List.cons_append, List.nil_append, utf8DecChar]
      rw [if_neg (by omega), if_neg (by omega), if_pos (by omega), utf8Dec2,
        if_pos (by refine ⟨by omega, by omega, by omega⟩)]
      have he : (192 + n / 64 - 192) * 64 + (128 + n % 64 - 128) = n := by omega
      rw [he]
    · rcases Nat.lt_or_ge n 65536 with h3 | h3
      · have hns : ¬(55296 ≤ n ∧ n < 57344) := by
          rcases hn with hv | hv <;> omega
        rw [utf8Char, if_neg (by omega), if_neg (by omega), if_pos h3,
          List.cons_append, List.cons_append, List.cons_append,
          List.nil_append, utf8DecChar]
        rw [if_neg (by omega), if_neg (by omega), if_neg (by omega),
          if_pos (by omega), utf8Dec3]
        have he : (224 + n / 4096 - 224) * 4096 + (128 + n / 64 % 64 - 128) * 64 +
            (128 + n % 64 - 128) = n := by omega
        rw [if_pos (by refine ⟨⟨by omega, by omega⟩, ⟨by omega, by omega⟩, ?_, ?_⟩ <;>
          rw [he] <;> omega)]
        rw [he]
      · have h4 : n < 1114112 := by
          rcases hn with hv | hv <;> omega
        rw [utf8Char, if_neg (by omega), if_neg (by omega), if_neg (by omega),
          List.cons_append, List.cons_append, List.cons_append,
          List.cons_append, List.nil_append, utf8DecChar]
        rw [if_neg (by omega), if_neg (by omega), if_neg (by omega),
          if_neg (by omega), if_pos (by omega), utf8Dec4]
        have he : (240 + n / 262144 - 240) * 262144 +
            (128 + n / 4096 % 64 - 128) * 4096 +
            (128 + n / 64 % 64 - 128) * 64 + (128 + n % 64 - 128) = n := by omega
        rw [if_pos (by refine ⟨⟨by omega, by omega⟩, ⟨by omega, by omega⟩,
          ⟨by omega, by omega⟩, ?_, ?_⟩ <;> rw [he] <;> omega)]
        rw [he]

theorem utf8DecodeAux_encode (s : JStr) :
    ∀ fuel : Nat, ValidStr s → (utf8Encode s).length ≤ fuel →
      utf8DecodeAux fuel (utf8Encode s) = some s := by
  induction s with
  | nil => intro fuel _ _; cases fuel <;> rfl
  | cons c rest ih =>
    intro fuel hs hlen
    have hvc : ValidCodepoint c := hs c (by simp)
    have hcharlen := utf8Char_length_pos c
    have hne : utf8Encode (c :: rest) ≠ [] := by
      rw [utf8Encode]
      intro hcon
      rcases List.append_eq_nil.mp hcon with ⟨hnil, _⟩
      rw [hnil] at hcharlen
      simp at hcharlen
    obtain ⟨b, bs, heq⟩ := List.exists_cons_of_ne_nil hne
    rcases fuel with _ | fuel
    · rw [utf8Encode] at hlen
      simp only [List.length_append, Nat.le_zero] at hlen
      omega
    · rw [heq, utf8DecodeAux, ← heq, utf8Encode, utf8DecChar_char c hvc]
      have hrest : ValidStr rest := fun n hn => hs n (by simp [hn])
      have hfk : (utf8Encode rest).length ≤ fuel := by
        rw [utf8Encode] at hlen
        simp only [List.length_append] at hlen
        omega
      simp only [ih fuel hrest hfk, Option.map_some']

theorem utf8Decode_encode (s : JStr) (hs : ValidStr s) :
    utf8Decode (utf8Encode s) = some s :=
  utf8DecodeAux_encode s (utf8Encode s).length hs (Nat.le_refl _)

/-! ## JSON string literals (`JSON.stringify` / `JSON.parse`)

`encodeObj` serializes the share object with `JSON.stringify`.  The share
object has a fixed shape (fixed keys in insertion order, string and
boolean leaves), so the JSON text is a fixed skeleton around escaped
string literals and boolean literals; `decodeObj`'s `JSON.parse` is
embedded as a parser for exactly that grammar (it agrees with
`JSON.parse` on every text `JSON.stringify` produces for a share
object). -/

/-- Lowercase hex digit, as emitted by `JSON.stringify`'s
`\u00XX` escapes. -/
def hexDigitCode (d : Nat) : Nat := if d < 10 then 48 + d else 87 + d

/-- `JSON.stringify` escaping of one character: `"` and `\` get a
backslash, the named control escapes are used for 8/9/10/12/13, other
control characters become `\u00XX`, everything else is copied. -/
def escChar (c : Nat) : List Nat :=
  if c = 34 then [92, 34]
  else if c = 92 then [92, 92]
  else if c = 8 then [92, 98]
  else if c = 12 then [92, 102]
  else if c = 10 then [92, 110]
  else if c = 13 then [92, 114]
  else if c = 9 then [92, 116]
  else if c < 32 then [92, 117, 48, 48, hexDigitCode (c / 16), hexDigitCode (c % 16)]
  else [c]

/-- `JSON.stringify` escaping of a whole string body. -/
def escStr : JStr → List Nat
  | [] => []
  | c :: rest => escChar c ++ escStr rest

/-- A JSON string literal: quote, escaped body, quote. -/
def jstr (s : JStr) : List Nat := 34 :: (escStr s ++ [34])

/-- Value of one hex digit (either case), as accepted by `JSON.parse`. -/
def hexVal (c : Nat) : Option Nat :=
  if 48 ≤ c ∧ c ≤ 57 then some (c - 48)
  else if 97 ≤ c ∧ c ≤ 102 then some (c - 87)
  else if 65 ≤ c ∧ c ≤ 70 then some (c - 55)
  else none

/-- Value of a single-character JSON escape. -/
def escVal (e : Nat) : Option Nat :=
  if e = 34 then some 34
  else if e = 92 then some 92
  else if e = 47 then some 47
  else if e = 98 then some 8
  else if e = 102 then some 12
  else if e = 110 then some 10
  else if e = 114 then some 13
  else if e = 116 then some 9
  else none

/-- Parse a `\uXXXX` code unit after the `\u` prefix. -/
def parseU : List Nat → Option (Nat × List Nat)
  | h1 :: h2 :: h3 :: h4 :: rest =>
    match hexVal h1, hexVal h2, hexVal h3, hexVal h4 with
    | some d1, some d2, some d3, some d4 =>
      some (d1 * 4096 + d2 * 256 + d3 * 16 + d4, rest)
    | _, _, _, _ => none
  | _ => none

/-- One step of JSON string-body parsing. -/
inductive StrStep where
  | done (rest : List Nat)
  | ch (c : Nat) (rest : List Nat)
  | err

/-- Consume the payload of a backslash escape. -/
def parseEsc : List Nat → StrStep
  | [] => .err
  | e :: rest1 =>
    if e = 117 then
      match parseU rest1 with
      | some (n, rest2) => .ch n rest2
      | none => .err
    else
      match escVal e with
      | some c2 => .ch c2 rest1
      | none => .err

/-- Consume one character (or the closing quote) of a JSON string body,
handling escapes; raw control characters are rejected as `JSON.parse`
does. -/
def parseStrChar : List Nat → StrStep
  | [] => .err
  | c :: rest =>
    if c = 34 then .done rest
    else if c = 92 then parseEsc rest
    else if c < 32 then .err
    else .ch c rest

/-- Fuel-driven JSON string-body parser (each step consumes at least one
input character, so `length + 1` fuel always suffices). -/
def parseStrBodyAux : Nat → List Nat → Option (JStr × JStr)
  | 0, _ => none
  | fuel + 1, s =>
    match parseStrChar s with
    | .done rest => some ([], rest)
    | .ch c rest =>
      match parseStrBodyAux fuel rest with
      | some (cs, r) => some (c :: cs, r)
      | none => none
    | .err => none

/-- Parse a JSON string literal from the front of the input. -/
def parseJString (s : List Nat) : Option (JStr × JStr) :=
  match s with
  | c :: rest => if c = 34 then parseStrBodyAux (rest.length + 1) rest else none
  | [] => none

theorem parseStrChar_cons (c : Nat) (rest : List Nat) :
    parseStrChar (c :: rest) =
      if c = 34 then StrStep.done rest
      else if c = 92 then parseEsc rest
      else if c < 32 then StrStep.err
      else StrStep.ch c rest := rfl

theorem parseStrBodyAux_succ (fuel : Nat) (s : List Nat) :
    parseStrBodyAux (fuel + 1) s =
      match parseStrChar s with
      | StrStep.done rest => some ([], rest)
      | StrStep.ch c rest =>
        match parseStrBodyAux fuel rest with
        | some (cs, r) => some (c :: cs, r)
        | none => none
      | StrStep.err => none := rfl

theorem hexVal_hexDigitCode : ∀ d < 16, hexVal (hexDigitCode d) = some d := by
  decide

theorem parseStrChar_escChar (c : Nat) (rest : List Nat) :
    parseStrChar (escChar c ++ rest) = StrStep.ch c rest := by
  rcases eq_or_ne c 34 with rfl | h34
  · rfl
  rcases eq_or_ne c 92 with rfl | h92
  · rfl
  rcases eq_or_ne c 8 with rfl | h8
  · rfl
  rcases eq_or_ne c 12 with rfl | h12
  · rfl
  rcases eq_or_ne c 10 with rfl | h10
  · rfl
  rcases eq_or_ne c 13 with rfl | h13
  · rfl
  rcases eq_or_ne c 9 with rfl | h9
  · rfl
  rcases Nat.lt_or_ge c 32 with hlt | hge
  · rw [escChar, if_neg h34, if_neg h92, if_neg h8, if_neg h12, if_neg h10,
      if_neg h13, if_neg h9, if_pos hlt]
    simp only [List.cons_append, List.nil_append]
    rw [parseStrChar_cons, if_neg (by omega), if_pos rfl]
    show parseEsc (117 :: 48 :: 48 :: hexDigitCode (c / 16) ::
      hexDigitCode (c % 16) :: rest) = StrStep.ch c rest
    rw [parseEsc, if_pos rfl]
    show (match parseU (48 :: 48 :: hexDigitCode (c / 16) ::
      hexDigitCode (c % 16) :: rest) with
      | some (n, rest2) => StrStep.ch n rest2
      | none => StrStep.err) = StrStep.ch c rest
    rw [parseU]
    rw [show hexVal 48 = some 0 from rfl,
        hexVal_hexDigitCode (c / 16) (by omega),
        hexVal_hexDigitCode (c % 16) (by omega)]
    show StrStep.ch (0 * 4096 + 0 * 256 + c / 16 * 16 + c % 16) rest =
      StrStep.ch c rest
    congr 1
    omega
  · rw [escChar, if_neg h34, if_neg h92, if_neg h8, if_neg h12, if_neg h10,
      if_neg h13, if_neg h9, if_neg (by omega)]
    simp only [List.cons_append, List.nil_append]
    rw [parseStrChar_cons, if_neg h34, if_neg h92, if_neg (by omega)]

theorem escChar_length_pos (c : Nat) : 0 < (escChar c).length := by
  unfold escChar
  split_ifs <;> simp

theorem length_le_escStr : ∀ s : JStr, s.length ≤ (escStr s).length
  | [] => Nat.le_refl 0
  | c :: rest => by
    rw [escStr]
    simp only [List.length_cons, List.length_append]
    have h1 := escChar_length_pos c
    have h2 := length_le_escStr rest
    omega

theorem parseStrBodyAux_escStr (s : JStr) :
    ∀ fuel rest, s.length < fuel →
      parseStrBodyAux fuel (escStr s ++ (34 :: rest)) = some (s, rest) := by
  induction s with
  | nil =>
    intro fuel rest hf
    rcases fuel with _ | fuel
    · omega
    · rw [show escStr [] ++ (34 :: rest) = 34 :: rest from rfl,
        parseStrBodyAux_succ, parseStrChar_cons, if_pos rfl]
  | cons c body ih =>
    intro fuel rest hf
    rcases fuel with _ | fuel
    · omega
    · rw [escStr, List.append_assoc, parseStrBodyAux_succ, parseStrChar_escChar]
      show (match parseStrBodyAux fuel (escStr body ++ (34 :: rest)) with
        | some (cs, r) => some (c :: cs, r)
        | none => none) = some (c :: body, rest)
      rw [ih fuel rest (by simpa using hf)]

theorem parseJString_jstr (s : JStr) (rest : List Nat) :
    parseJString (jstr s ++ rest) = some (s, rest) := by
  rw [jstr]
  simp only [List.cons_append, List.append_assoc, List.singleton_append]
  rw [parseJString]
  rw [if_pos rfl]
  apply parseStrBodyAux_escStr
  have h1 := length_le_escStr s
  simp only [List.length_append, List.length_cons]
  omega

/-! ## Fixed literals and booleans in the JSON skeleton -/

/-- Consume an expected literal prefix, returning the remainder. -/
def dropLit : List Nat → List Nat → Option (List Nat)
  | [], s => some s
  | _ :: _, [] => none
  | l :: ls, c :: cs => if c = l then dropLit ls cs else none

theorem dropLit_append : ∀ (l r : List Nat), dropLit l (l ++ r) = some r
  | [], r => rfl
  | l :: ls, r => by
    rw [List.cons_append, dropLit, if_pos rfl]
    exact dropLit_append ls r

/-- `JSON.stringify` output for a boolean. -/
def boolLit (b : Bool) : JStr :=
  if b then strToCodes ("true") else strToCodes ("false")

/-- Parse a JSON boolean literal. -/
def parseBool (s : List Nat) : Option (Bool × List Nat) :=
  match dropLit (strToCodes ("true")) s with
  | some r => some (true, r)
  | none =>
    match dropLit (strToCodes ("false")) s with
    | some r => some (false, r)
    | none => none

theorem parseBool_boolLit (b : Bool) (rest : List Nat) :
    parseBool (boolLit b ++ rest) = some (b, rest) := by
  cases b
  · have hne : dropLit (strToCodes ("true")) (boolLit false ++ rest) = none := by
      rw [show boolLit false ++ rest = 102 :: 97 :: 108 :: 115 :: 101 :: rest
        from rfl]
      rfl
    rw [parseBool, hne]
    rw [show boolLit false ++ rest = strToCodes ("false") ++ rest from rfl,
      dropLit_append]
  · rw [parseBool, show boolLit true ++ rest = strToCodes ("true") ++ rest
      from rfl, dropLit_append]

/-! ## The Card data model

Fields as built by `saveSettings` (settings module) and consumed by
`buildShareObj` (`src/js/storage.js`).  `portfolioLinks.resume` may hold
the legacy single-string shape, the current `{pdf, docx}` object, or be
missing (`undefined`/`null`), exactly the three cases `buildShareObj`
branches on.  `portfolioVisibility` may be missing, in which case
`buildShareObj` substitutes the all-`true` default object. -/

/-- The two-slot resume record `{pdf, docx}`. -/
structure ResumeObj where
  pdf : JStr
  docx : JStr
deriving DecidableEq

/-- The dynamic shapes `cardData.portfolioLinks?.resume` can take. -/
inductive ResumeField where
  | legacy (s : JStr)
  | modern (r : ResumeObj)
  | absent
deriving DecidableEq

/-- `portfolioLinks` as written by `saveSettings` and `DEFAULT_CARD`
(insertion order cert, edu, proj, ref, resume, work). -/
structure PortfolioLinks where
  cert : JStr
  edu : JStr
  proj : JStr
  ref : JStr
  resume : ResumeField
  work : JStr
deriving DecidableEq

/-- The six portfolio visibility flags. -/
structure Visibility where
  cert : Bool
  edu : Bool
  proj : Bool
  ref : Bool
  resume : Bool
  work : Bool
deriving DecidableEq

/-- A stored Card (the record built by `saveSettings`). -/
structure Card where
  firstName : JStr
  lastName : JStr
  jobTitle : JStr
  email : JStr
  phone : JStr
  phoneE164 : JStr
  countryCode : JStr
  localNumber : JStr
  linkedin : JStr
  cardColor : JStr
  bgColor : JStr
  profilePic : JStr
  portfolioLinks : PortfolioLinks
  portfolioVisibility : Option Visibility
  lastUpdated : JStr
deriving DecidableEq

/-- The share-safe portfolio links: resume always in two-slot shape. -/
structure SharePortfolio where
  cert : JStr
  edu : JStr
  proj : JStr
  ref : JStr
  resume : ResumeObj
  work : JStr
deriving DecidableEq

/-- The projection of a Card built by `buildShareObj`
(`src/js/storage.js`, key insertion order as in the object literal). -/
structure ShareObj where
  firstName : JStr
  lastName : JStr
  jobTitle : JStr
  email : JStr
  phone : JStr
  phoneE164 : JStr
  linkedin : JStr
  cardColor : JStr
  bgColor : JStr
  profilePic : JStr
  links : SharePortfolio
  visibility : Visibility
deriving DecidableEq

/-- Resume normalization at the top of `buildShareObj`: a legacy string
`s` becomes `{pdf: s, docx: ''}` (this also covers the falsy empty
string, which the `typeof === 'string'` test catches first), a missing
value becomes `{pdf: '', docx: ''}`. -/
def normalizeResume : ResumeField → ResumeObj
  | ResumeField.legacy s => ⟨s, []⟩
  | ResumeField.modern r => r
  | ResumeField.absent => ⟨[], []⟩

/-- `profilePic.startsWith('data:image')`. -/
def startsWithDataImage (s : JStr) : Bool :=
  (dropLit (strToCodes ("data:image")) s).isSome

/-- `compressImageForQR` (`src/js/storage.js`): its canvas path is
stubbed out, so it always returns the empty string. -/
def compressImageForQR (_dataUrl : JStr) : JStr := []

/-- `buildShareObj(cardData, forQRCode)` (`src/js/storage.js` lines
360–395).  The `cardData.profilePic &&` truthiness guard is absorbed by
`startsWithDataImage`, which is false on the empty string. -/
def buildShareObj (cardData : Card) (forQRCode : Bool) : ShareObj :=
  let resumeData := normalizeResume cardData.portfolioLinks.resume
  let profilePicData :=
    if forQRCode && startsWithDataImage cardData.profilePic then
      compressImageForQR cardData.profilePic
    else cardData.profilePic
  { firstName := cardData.firstName
    lastName := cardData.lastName
    jobTitle := cardData.jobTitle
    email := cardData.email
    phone := cardData.phone
    phoneE164 := cardData.phoneE164
    linkedin := cardData.linkedin
    cardColor := cardData.cardColor
    bgColor := cardData.bgColor
    profilePic := profilePicData
    links := { cert := cardData.portfolioLinks.cert
               edu := cardData.portfolioLinks.edu
               proj := cardData.portfolioLinks.proj
               ref := cardData.portfolioLinks.ref
               resume := resumeData
               work := cardData.portfolioLinks.work }
    visibility := cardData.portfolioVisibility.getD
      ⟨true, true, true, true, true, true⟩ }

/-- `JSON.stringify` of a share object: fixed skeleton (keys in
insertion order) around escaped string and boolean literals. -/
def stringifyShare (o : ShareObj) : List Nat :=
  strToCodes ("\x7b\"firstName\":") ++ jstr o.firstName ++
  strToCodes (",\"lastName\":") ++ jstr o.lastName ++
  strToCodes (",\"jobTitle\":") ++ jstr o.jobTitle ++
  strToCodes (",\"email\":") ++ jstr o.email ++
  strToCodes (",\"phone\":") ++ jstr o.phone ++
  strToCodes (",\"phoneE164\":") ++ jstr o.phoneE164 ++
  strToCodes (",\"linkedin\":") ++ jstr o.linkedin ++
  strToCodes (",\"cardColor\":") ++ jstr o.cardColor ++
  strToCodes (",\"bgColor\":") ++ jstr o.bgColor ++
  strToCodes (",\"profilePic\":") ++ jstr o.profilePic ++
  strToCodes (",\"portfolioLinks\":\x7b\"cert\":") ++ jstr o.links.cert ++
  strToCodes (",\"edu\":") ++ jstr o.links.edu ++
  strToCodes (",\"proj\":") ++ jstr o.links.proj ++
  strToCodes (",\"ref\":") ++ jstr o.links.ref ++
  strToCodes (",\"resume\":\x7b\"pdf\":") ++ jstr o.links.resume.pdf ++
  strToCodes (",\"docx\":") ++ jstr o.links.resume.docx ++
  strToCodes ("\x7d,\"work\":") ++ jstr o.links.work ++
  strToCodes ("\x7d,\"portfolioVisibility\":\x7b\"cert\":") ++
    boolLit o.visibility.cert ++
  strToCodes (",\"edu\":") ++ boolLit o.visibility.edu ++
  strToCodes (",\"proj\":") ++ boolLit o.visibility.proj ++
  strToCodes (",\"ref\":") ++ boolLit o.visibility.ref ++
  strToCodes (",\"resume\":") ++ boolLit o.visibility.resume ++
  strToCodes (",\"work\":") ++ boolLit o.visibility.work ++
  strToCodes ("\x7d\x7d")

/-- Parse one string-valued field: the literal `lit` (preceding
skeleton including the key) followed by a JSON string literal. -/
def pStr (lit : List Nat) (s : List Nat) : Option (JStr × List Nat) :=
  match dropLit lit s with
  | some r => parseJString r
  | none => none

/-- Parse one boolean-valued field. -/
def pBool (lit : List Nat) (s : List Nat) : Option (Bool × List Nat) :=
  match dropLit lit s with
  | some r => parseBool r
  | none => none

/-- The first five string fields of a share object. -/
structure SFieldsA where
  firstName : JStr
  lastName : JStr
  jobTitle : JStr
  email : JStr
  phone : JStr
deriving DecidableEq

/-- The next five string fields of a share object. -/
structure SFieldsB where
  phoneE164 : JStr
  linkedin : JStr
  cardColor : JStr
  bgColor : JStr
  profilePic : JStr
deriving DecidableEq

/-- Parse fields firstName … phone. -/
def parseShareA (s : List Nat) : Option (SFieldsA × List Nat) := do
  let (v1, r) ← pStr (strToCodes ("\x7b\"firstName\":")) s
  let (v2, r) ← pStr (strToCodes (",\"lastName\":")) r
  let (v3, r) ← pStr (strToCodes (",\"jobTitle\":")) r
  let (v4, r) ← pStr (strToCodes (",\"email\":")) r
  let (v5, r) ← pStr (strToCodes (",\"phone\":")) r
  pure (⟨v1, v2, v3, v4, v5⟩, r)

/-- Parse fields phoneE164 … profilePic. -/
def parseShareB (s : List Nat) : Option (SFieldsB × List Nat) := do
  let (v1, r) ← pStr (strToCodes (",\"phoneE164\":")) s
  let (v2, r) ← pStr (strToCodes (",\"linkedin\":")) r
  let (v3, r) ← pStr (strToCodes (",\"cardColor\":")) r
  let (v4, r) ← pStr (strToCodes (",\"bgColor\":")) r
  let (v5, r) ← pStr (strToCodes (",\"profilePic\":")) r
  pure (⟨v1, v2, v3, v4, v5⟩, r)

/-- Parse the nested portfolioLinks object. -/
def parseShareLinks (s : List Nat) : Option (SharePortfolio × List Nat) := do
  let (v1, r) ← pStr (strToCodes (",\"portfolioLinks\":\x7b\"cert\":")) s
  let (v2, r) ← pStr (strToCodes (",\"edu\":")) r
  let (v3, r) ← pStr (strToCodes (",\"proj\":")) r
  let (v4, r) ← pStr (strToCodes (",\"ref\":")) r
  let (v5, r) ← pStr (strToCodes (",\"resume\":\x7b\"pdf\":")) r
  let (v6, r) ← pStr (strToCodes (",\"docx\":")) r
  let (v7, r) ← pStr (strToCodes ("\x7d,\"work\":")) r
  pure (⟨v1, v2, v3, v4, ⟨v5, v6⟩, v7⟩, r)

/-- Parse the nested portfolioVisibility object. -/
def parseShareVis (s : List Nat) : Option (Visibility × List Nat) := do
  let (v1, r) ← pBool
    (strToCodes ("\x7d,\"portfolioVisibility\":\x7b\"cert\":")) s
  let (v2, r) ← pBool (strToCodes (",\"edu\":")) r
  let (v3, r) ← pBool (strToCodes (",\"proj\":")) r
  let (v4, r) ← pBool (strToCodes (",\"ref\":")) r
  let (v5, r) ← pBool (strToCodes (",\"resume\":")) r
  let (v6, r) ← pBool (strToCodes (",\"work\":")) r
  pure (⟨v1, v2, v3, v4, v5, v6⟩, r)

/-- `JSON.parse` restricted to the share-object grammar: the exact
skeleton `stringifyShare` emits, with arbitrary string and boolean
values.  On every `stringifyShare` output this agrees with full
`JSON.parse`. -/
def parseShare (s : List Nat) : Option ShareObj := do
  let (a, r) ← parseShareA s
  let (b, r) ← parseShareB r
  let (links, r) ← parseShareLinks r
  let (vis, r) ← parseShareVis r
  let r ← dropLit (strToCodes ("\x7d\x7d")) r
  if r = [] then
    pure { firstName := a.firstName
           lastName := a.lastName
           jobTitle := a.jobTitle
           email := a.email
           phone := a.phone
           phoneE164 := b.phoneE164
           linkedin := b.linkedin
           cardColor := b.cardColor
           bgColor := b.bgColor
           profilePic := b.profilePic
           links := links
           visibility := vis }
  else none

/-- `encodeObj` (`src/js/utils.js` line 6):
`btoa(unescape(encodeURIComponent(JSON.stringify(obj))))`. -/
def encodeObj (o : ShareObj) : JStr := btoa (utf8Encode (stringifyShare o))

/-- `decodeObj` (`src/js/utils.js` line 13):
`JSON.parse(decodeURIComponent(escape(atob(str))))`; any failing stage
yields `none` (the thrown exception). -/
def decodeObj (t : JStr) : Option ShareObj := do
  let bytes ← atob t
  let s ← utf8Decode bytes
  parseShare s

theorem pStr_append (lit v : List Nat) (rest : List Nat) :
    pStr lit (lit ++ (jstr v ++ rest)) = some (v, rest) := by
  rw [pStr, dropLit_append]
  exact parseJString_jstr v rest

theorem pBool_append (lit : List Nat) (b : Bool) (rest : List Nat) :
    pBool lit (lit ++ (boolLit b ++ rest)) = some (b, rest) := by
  rw [pBool, dropLit_append]
  exact parseBool_boolLit b rest

theorem parseShareA_round (v1 v2 v3 v4 v5 : JStr) (rest : List Nat) :
    parseShareA (strToCodes ("\x7b\"firstName\":") ++ (jstr v1 ++
      (strToCodes (",\"lastName\":") ++ (jstr v2 ++
      (strToCodes (",\"jobTitle\":") ++ (jstr v3 ++
      (strToCodes (",\"email\":") ++ (jstr v4 ++
      (strToCodes (",\"phone\":") ++ (jstr v5 ++ rest)))))))))) =
      some (⟨v1, v2, v3, v4, v5⟩, rest) := by
  rw [parseShareA]
  simp only [pStr_append, Option.bind_eq_bind, Option.some_bind]
  rfl

theorem parseShareB_round (v1 v2 v3 v4 v5 : JStr) (rest : List Nat) :
    parseShareB (strToCodes (",\"phoneE164\":") ++ (jstr v1 ++
      (strToCodes (",\"linkedin\":") ++ (jstr v2 ++
      (strToCodes (",\"cardColor\":") ++ (jstr v3 ++
      (strToCodes (",\"bgColor\":") ++ (jstr v4 ++
      (strToCodes (",\"profilePic\":") ++ (jstr v5 ++ rest)))))))))) =
      some (⟨v1, v2, v3, v4, v5⟩, rest) := by
  rw [parseShareB]
  simp only [pStr_append, Option.bind_eq_bind, Option.some_bind]
  rfl

theorem parseShareLinks_round (v1 v2 v3 v4 v5 v6 v7 : JStr) (rest : List Nat) :
    parseShareLinks (strToCodes (",\"portfolioLinks\":\x7b\"cert\":") ++ (jstr v1 ++
      (strToCodes (",\"edu\":") ++ (jstr v2 ++
      (strToCodes (",\"proj\":") ++ (jstr v3 ++
      (strToCodes (",\"ref\":") ++ (jstr v4 ++
      (strToCodes (",\"resume\":\x7b\"pdf\":") ++ (jstr v5 ++
      (strToCodes (",\"docx\":") ++ (jstr v6 ++
      (strToCodes ("\x7d,\"work\":") ++ (jstr v7 ++ rest)))))))))))))) =
      some (⟨v1, v2, v3, v4, ⟨v5, v6⟩, v7⟩, rest) := by
  rw [parseShareLinks]
  simp only [pStr_append, Option.bind_eq_bind, Option.some_bind]
  rfl

theorem parseShareVis_round (b1 b2 b3 b4 b5 b6 : Bool) (rest : List Nat) :
    parseShareVis (strToCodes ("\x7d,\"portfolioVisibility\":\x7b\"cert\":") ++
      (boolLit b1 ++
      (strToCodes (",\"edu\":") ++ (boolLit b2 ++
      (strToCodes (",\"proj\":") ++ (boolLit b3 ++
      (strToCodes (",\"ref\":") ++ (boolLit b4 ++
      (strToCodes (",\"resume\":") ++ (boolLit b5 ++
      (strToCodes (",\"work\":") ++ (boolLit b6 ++ rest)))))))))))) =
      some (⟨b1, b2, b3, b4, b5, b6⟩, rest) := by
  rw [parseShareVis]
  simp only [pBool_append, Option.bind_eq_bind, Option.some_bind]
  rfl

theorem dropLit_self (l : List Nat) : dropLit l l = some [] := by
  have h := dropLit_append l []
  rwa [List.append_nil] at h

theorem parseShare_stringifyShare (o : ShareObj) :
    parseShare (stringifyShare o) = some o := by
  rw [parseShare, stringifyShare]
  simp only [List.append_assoc]
  rw [parseShareA_round]
  simp only [Option.bind_eq_bind, Option.some_bind]
  rw [parseShareB_round]
  simp only [Option.some_bind]
  rw [parseShareLinks_round]
  simp only [Option.some_bind]
  rw [parseShareVis_round]
  simp only [Option.some_bind]
  rw [dropLit_self]
  simp only [Option.some_bind, if_pos rfl]
  rfl

theorem validStr_append (a b : List Nat) (ha : ValidStr a) (hb : ValidStr b) :
    ValidStr (a ++ b) := by
  intro n hn
  rcases List.mem_append.mp hn with h | h
  · exact ha n h
  · exact hb n h

theorem validStr_escChar (c : Nat) (hc : ValidCodepoint c) :
    ValidStr (escChar c) := by
  intro n hn
  unfold escChar at hn
  split_ifs at hn with h1 h2 h3 h4 h5 h6 h7 h8
  all_goals simp only [List.mem_cons, List.not_mem_nil, or_false] at hn
  · rcases hn with rfl | rfl <;> exact Or.inl (by omega)
  · rcases hn with rfl | rfl <;> exact Or.inl (by omega)
  · rcases hn with rfl | rfl <;> exact Or.inl (by omega)
  · rcases hn with rfl | rfl <;> exact Or.inl (by omega)
  · rcases hn with rfl | rfl <;> exact Or.inl (by omega)
  · rcases hn with rfl | rfl <;> exact Or.inl (by omega)
  · rcases hn with rfl | rfl <;> exact Or.inl (by omega)
  · rcases hn with rfl | rfl | rfl | rfl | rfl | rfl
    · exact Or.inl (by omega)
    · exact Or.inl (by omega)
    · exact Or.inl (by omega)
    · exact Or.inl (by omega)
    · exact Or.inl (by unfold hexDigitCode; split_ifs <;> omega)
    · exact Or.inl (by unfold hexDigitCode; split_ifs <;> omega)
  · rcases hn with rfl
    exact hc

theorem validStr_escStr (s : JStr) (hs : ValidStr s) : ValidStr (escStr s) := by
  induction s with
  | nil => intro n hn; simp [escStr] at hn
  | cons c rest ih =>
    rw [escStr]
    exact validStr_append _ _ (validStr_escChar c (hs c (by simp)))
      (ih (fun n hn => hs n (by simp [hn])))

theorem validStr_jstr (s : JStr) (hs : ValidStr s) : ValidStr (jstr s) := by
  rw [jstr]
  intro n hn
  rcases List.mem_cons.mp hn with rfl | hn
  · exact Or.inl (by omega)
  · rcases List.mem_append.mp hn with h | h
    · exact validStr_escStr s hs n h
    · simp only [List.mem_singleton] at h
      subst h
      exact Or.inl (by omega)

theorem validStr_boolLit (b : Bool) : ValidStr (boolLit b) := by
  cases b <;> exact validStr_strToCodes _

/-- Well-formedness of all string fields of a share object. -/
def ValidShareObj (o : ShareObj) : Prop :=
  ValidStr o.firstName ∧ ValidStr o.lastName ∧ ValidStr o.jobTitle ∧
  ValidStr o.email ∧ ValidStr o.phone ∧ ValidStr o.phoneE164 ∧
  ValidStr o.linkedin ∧ ValidStr o.cardColor ∧ ValidStr o.bgColor ∧
  ValidStr o.profilePic ∧ ValidStr o.links.cert ∧ ValidStr o.links.edu ∧
  ValidStr o.links.proj ∧ ValidStr o.links.ref ∧
  ValidStr o.links.resume.pdf ∧ ValidStr o.links.resume.docx ∧
  ValidStr o.links.work

instance (o : ShareObj) : Decidable (ValidShareObj o) := by
  unfold ValidShareObj; infer_instance

theorem validStr_stringifyShare (o : ShareObj) (h : ValidShareObj o) :
    ValidStr (stringifyShare o) := by
  obtain ⟨h1, h2, h3, h4, h5, h6, h7, h8, h9, h10, h11, h12, h13, h14,
    h15, h16, h17⟩ := h
  rw [stringifyShare]
  repeat' apply validStr_append
  all_goals
    first
      | exact validStr_strToCodes _
      | exact validStr_boolLit _
      | (apply validStr_jstr; assumption)

/-- Well-formedness of all string fields of a stored card. -/
def ValidResumeField : ResumeField → Prop
  | ResumeField.legacy s => ValidStr s
  | ResumeField.modern r => ValidStr r.pdf ∧ ValidStr r.docx
  | ResumeField.absent => True

instance (r : ResumeField) : Decidable (ValidResumeField r) := by
  cases r <;> (unfold ValidResumeField; infer_instance)

/-- Well-formedness of all string fields of a Card. -/
def ValidCard (c : Card) : Prop :=
  ValidStr c.firstName ∧ ValidStr c.lastName ∧ ValidStr c.jobTitle ∧
  ValidStr c.email ∧ ValidStr c.phone ∧ ValidStr c.phoneE164 ∧
  ValidStr c.linkedin ∧ ValidStr c.cardColor ∧ ValidStr c.bgColor ∧
  ValidStr c.profilePic ∧ ValidStr c.portfolioLinks.cert ∧
  ValidStr c.portfolioLinks.edu ∧ ValidStr c.portfolioLinks.proj ∧
  ValidStr c.portfolioLinks.ref ∧ ValidResumeField c.portfolioLinks.resume ∧
  ValidStr c.portfolioLinks.work

instance (c : Card) : Decidable (ValidCard c) := by
  unfold ValidCard; infer_instance

theorem validStr_nil : ValidStr [] := by
  intro n hn
  simp at hn

theorem validShareObj_buildShareObj (c : Card) (forQRCode : Bool)
    (h : ValidCard c) : ValidShareObj (buildShareObj c forQRCode) := by
  obtain ⟨h1, h2, h3, h4, h5, h6, h7, h8, h9, h10, h11, h12, h13, h14,
    h15, h16⟩ := h
  refine ⟨h1, h2, h3, h4, h5, h6, h7, h8, h9, ?_, h11, h12, h13, h14,
    ?_, ?_, h16⟩
  · show ValidStr (if forQRCode && startsWithDataImage c.profilePic then
      compressImageForQR c.profilePic else c.profilePic)
    split_ifs
    · exact validStr_nil
    · exact h10
  · show ValidStr (normalizeResume c.portfolioLinks.resume).pdf
    rcases hr : c.portfolioLinks.resume with s | r | _
    · rw [hr] at h15
      exact h15
    · rw [hr] at h15
      exact h15.1
    · exact validStr_nil
  · show ValidStr (normalizeResume c.portfolioLinks.resume).docx
    rcases hr : c.portfolioLinks.resume with s | r | _
    · exact validStr_nil
    · rw [hr] at h15
      exact h15.2
    · exact validStr_nil

theorem decodeObj_encodeObj (o : ShareObj) (h : ValidShareObj o) :
    decodeObj (encodeObj o) = some o := by
  have hv := validStr_stringifyShare o h
  rw [decodeObj, encodeObj, atob_btoa _ (utf8Encode_lt _ hv)]
  simp only [Option.bind_eq_bind, Option.some_bind]
  rw [utf8Decode_encode _ hv]
  simp only [Option.some_bind]
  exact parseShare_stringifyShare o

/-- `DEFAULT_CARD` (config module): the built-in John Doe template. -/
def DEFAULT_CARD : Card :=
  { firstName := strToCodes ("John")
    lastName := strToCodes ("Doe")
    jobTitle := strToCodes ("Student")
    email := strToCodes ("john.doe@email.com")
    phone := strToCodes ("+1 (555)-123-4567")
    phoneE164 := strToCodes ("+15551234567")
    countryCode := strToCodes ("1")
    localNumber := strToCodes ("5551234567")
    linkedin := strToCodes ("https://linkedin.com/in/johndoe")
    cardColor := strToCodes ("#6366f1")
    bgColor := strToCodes ("#6B46C1")
    profilePic := strToCodes
      ("https://images.unsplash.com/photo-1472099645785-5658abf4ff4e?w=400")
    portfolioLinks := { cert := [], edu := [], proj := [], ref := []
                        resume := ResumeField.modern ⟨[], []⟩, work := [] }
    portfolioVisibility := some ⟨true, true, true, true, true, true⟩
    lastUpdated := [] }

/-- C1: for every Card whose projected shareable form serializes within
the size ceiling (token length at most 4000), decoding the encoded token
recovers the projection exactly: `decodeObj (encodeObj (buildShareObj
card))` equals `buildShareObj card` field-for-field, with
`portfolioLinks.resume` normalized to the two-slot `{pdf, docx}` shape
inside the projection. -/
theorem c1_share_roundtrip (card : Card) (hv : ValidCard card)
    (_hsize : (encodeObj (buildShareObj card false)).length ≤ 4000) :
    decodeObj (encodeObj (buildShareObj card false)) =
      some (buildShareObj card false) :=
  decodeObj_encodeObj _ (validShareObj_buildShareObj card false hv)

set_option maxRecDepth 100000 in
/-- C1 witness: the round trip holds at the concrete default card. -/
theorem c1_share_roundtrip_witness :
    ValidCard DEFAULT_CARD ∧
    (encodeObj (buildShareObj DEFAULT_CARD false)).length ≤ 4000 ∧
    decodeObj (encodeObj (buildShareObj DEFAULT_CARD false)) =
      some (buildShareObj DEFAULT_CARD false) :=
  ⟨by decide, by decide, c1_share_roundtrip DEFAULT_CARD (by decide) (by decide)⟩

/-! ## C2: URL query-string transport of the token

`generateQRCode` and `buildShareUrlFromUI` (`src/js/share.js`) splice the
token verbatim into `?card=`; `checkForSharedCard` (`src/js/main.js`)
reads it back with `URLSearchParams.get('card')`, which applies
application/x-www-form-urlencoded decoding to the value. -/

/-- Modelled from the URL Standard: the form-urlencoded value decoding
performed by `URLSearchParams.get` maps `+` (code 43) to a space
(code 32); tokens contain no `%`, so percent-decoding is the identity on
them and only the plus rewriting is relevant. -/
def urlQueryPlusDecode (s : JStr) : JStr :=
  s.map (fun c => if c = 43 then 32 else c)

/-- Membership in the `btoa` output alphabet `A–Z a–z 0–9 + / =`. -/
def isB64TokenCode (c : Nat) : Bool :=
  (65 ≤ c && c ≤ 90) || (97 ≤ c && c ≤ 122) || (48 ≤ c && c ≤ 57) ||
  c = 43 || c = 47 || c = 61

theorem isB64TokenCode_b64CharOf (k : Nat) : isB64TokenCode (b64CharOf k) = true := by
  unfold isB64TokenCode b64CharOf
  split_ifs <;> simp <;> omega

theorem btoa_mem_alphabet :
    ∀ l : List Nat, ∀ c ∈ btoa l, isB64TokenCode c = true
  | [], _, hc => by simp [btoa] at hc
  | [b1], c, hc => by
    simp only [btoa, List.mem_cons, List.not_mem_nil, or_false] at hc
    rcases hc with rfl | rfl | rfl | rfl
    · exact isB64TokenCode_b64CharOf _
    · exact isB64TokenCode_b64CharOf _
    · rfl
    · rfl
  | [b1, b2], c, hc => by
    simp only [btoa, List.mem_cons, List.not_mem_nil, or_false] at hc
    rcases hc with rfl | rfl | rfl | rfl
    · exact isB64TokenCode_b64CharOf _
    · exact isB64TokenCode_b64CharOf _
    · exact isB64TokenCode_b64CharOf _
    · rfl
  | b1 :: b2 :: b3 :: rest, c, hc => by
    simp only [btoa, List.mem_cons] at hc
    rcases hc with rfl | rfl | rfl | rfl | hmem
    · exact isB64TokenCode_b64CharOf _
    · exact isB64TokenCode_b64CharOf _
    · exact isB64TokenCode_b64CharOf _
    · exact isB64TokenCode_b64CharOf _
    · exact btoa_mem_alphabet rest c hmem

theorem urlQueryPlusDecode_of_no_plus (s : JStr) (h : 43 ∉ s) :
    urlQueryPlusDecode s = s := by
  unfold urlQueryPlusDecode
  induction s with
  | nil => rfl
  | cons c rest ih =>
    have hc : c ≠ 43 := by
      intro hcon
      exact h (by simp [hcon])
    rw [List.map_cons, if_neg hc, ih (fun hm => h (by simp [hm]))]

/-- The concrete card whose token contains a `+`: the default card with
jobTitle `>>>` (the byte `>` = 62 produces the base64 digit `+` when it
lands in the low six bits of a quantum). -/
def cardWithPlusToken : Card :=
  { DEFAULT_CARD with jobTitle := strToCodes (">>>") }

set_option maxRecDepth 100000 in
/-- C2 counterexample: the claim fails at `cardWithPlusToken` — its
token contains `+` (code 43), a character that query-string transport
rewrites to a space, so the recipient does not recover the token
unchanged. -/
theorem c2_counterexample :
    43 ∈ encodeObj (buildShareObj cardWithPlusToken false) ∧
    urlQueryPlusDecode (encodeObj (buildShareObj cardWithPlusToken false)) ≠
      encodeObj (buildShareObj cardWithPlusToken false) := by
  decide

/-- C2 (amended): every character of the token lies in the base64
alphabet `A–Z a–z 0–9 + / =`; all of these survive query-string
transport except `+`, so a token free of `+` (code 43) is recovered
unchanged — but `+` can occur (see the counterexample), so transport
safety does not hold for every card. -/
theorem c2_token_alphabet (o : ShareObj) :
    (∀ c ∈ encodeObj o, isB64TokenCode c = true) ∧
    (43 ∉ encodeObj o → urlQueryPlusDecode (encodeObj o) = encodeObj o) :=
  ⟨fun c hc => btoa_mem_alphabet _ c hc,
   fun h => urlQueryPlusDecode_of_no_plus _ h⟩

set_option maxRecDepth 100000 in
/-- C2 witness: the amended claim at the concrete default card (whose
token happens to contain no `+`). -/
theorem c2_token_alphabet_witness :
    43 ∉ encodeObj (buildShareObj DEFAULT_CARD false) ∧
    urlQueryPlusDecode (encodeObj (buildShareObj DEFAULT_CARD false)) =
      encodeObj (buildShareObj DEFAULT_CARD false) :=
  ⟨by decide, (c2_token_alphabet (buildShareObj DEFAULT_CARD false)).2 (by decide)⟩

/-! ## C3: the QR size gate in `generateQRCode` (`src/js/share.js`) -/

/-- The object `generateQRCode` encodes: `buildShareObj(rawCard)` with
`profilePic` cleared when it is an embedded `data:image` payload. -/
def qrShareObjOf (card : Card) : ShareObj :=
  let fullShareObj := buildShareObj card false
  { fullShareObj with
    profilePic :=
      if startsWithDataImage fullShareObj.profilePic then []
      else fullShareObj.profilePic }

/-- The share URL `generateQRCode` builds:
`baseUrl + (baseUrl.includes('?') ? '&' : '?') + 'card=' + encodedCard`. -/
def qrShareUrl (baseUrl : JStr) (card : Card) : JStr :=
  baseUrl ++
  (if 63 ∈ baseUrl then strToCodes ("&card=") else strToCodes ("?card=")) ++
  encodeObj (qrShareObjOf card)

/-- Outcome of `generateQRCode`'s rendering branch. -/
inductive QRRender where
  | image (shareUrl : JStr)
  | rawLink (shareUrl : JStr)
deriving DecidableEq

/-- The rendering decision of `generateQRCode` (`src/js/share.js` lines
101–114): when the encoded token is longer than 4000 characters, no QR
image request is made and the raw share link is shown as copyable text;
otherwise a QR image for the share URL is requested. -/
def generateQRCode (baseUrl : JStr) (card : Card) : QRRender :=
  if (encodeObj (qrShareObjOf card)).length > 4000 then
    QRRender.rawLink (qrShareUrl baseUrl card)
  else
    QRRender.image (qrShareUrl baseUrl card)

/-- C3: `generateQRCode` attempts QR-image rendering exactly when the
encoded token's length is at most 4000; when the length exceeds 4000 it
makes no QR-image request and instead surfaces the raw share link as
copyable text. -/
theorem c3_qr_size_gate (baseUrl : JStr) (card : Card) :
    (generateQRCode baseUrl card = QRRender.image (qrShareUrl baseUrl card) ↔
      (encodeObj (qrShareObjOf card)).length ≤ 4000) ∧
    (generateQRCode baseUrl card = QRRender.rawLink (qrShareUrl baseUrl card) ↔
      4000 < (encodeObj (qrShareObjOf card)).length) := by
  rcases Nat.lt_or_ge 4000 (encodeObj (qrShareObjOf card)).length with h | h
  · have hg : generateQRCode baseUrl card =
        QRRender.rawLink (qrShareUrl baseUrl card) := by
      rw [generateQRCode, if_pos h]
    rw [hg]
    refine ⟨⟨fun hcon => ?_, fun hle => absurd hle (by omega)⟩,
      ⟨fun _ => h, fun _ => rfl⟩⟩
    exact absurd hcon (by simp)
  · have hg : generateQRCode baseUrl card =
        QRRender.image (qrShareUrl baseUrl card) := by
      rw [generateQRCode, if_neg (by omega)]
    rw [hg]
    refine ⟨⟨fun _ => h, fun _ => rfl⟩,
      ⟨fun hcon => absurd hcon (by simp), fun hgt => absurd hgt (by omega)⟩⟩

/-! ## C4: `formatName` (`src/js/utils.js` lines 132–185)

ASCII case mapping suffices here: `formatName` rejects any character
outside `[A-Za-z' -]` before capitalizing. -/

/-- The JavaScript whitespace class (`\s`, `String.prototype.trim`)
restricted to the code points relevant to this code base (ASCII
whitespace, NBSP, BOM). -/
def isJsSpace (c : Nat) : Bool :=
  c = 32 || c = 9 || c = 10 || c = 11 || c = 12 || c = 13 || c = 160 ||
  c = 65279

/-- Remove trailing whitespace. -/
def trimEnd : JStr → JStr
  | [] => []
  | c :: r =>
    match trimEnd r with
    | [] => if isJsSpace c then [] else [c]
    | x :: xs => c :: x :: xs

/-- `String.prototype.trim`: strip leading and trailing whitespace. -/
def jsTrim (s : JStr) : JStr := trimEnd (s.dropWhile isJsSpace)

/-- `replace(/\s+/g, " ")`: collapse every whitespace run to one space. -/
def collapseWsAux : Bool → JStr → JStr
  | _, [] => []
  | prevSpace, c :: rest =>
    if isJsSpace c then
      if prevSpace then collapseWsAux true rest
      else 32 :: collapseWsAux true rest
    else c :: collapseWsAux false rest

/-- `replace(/\s+/g, " ")`. -/
def collapseWs (s : JStr) : JStr := collapseWsAux false s

/-- `replace(/\s+/g, "")`: remove all whitespace. -/
def removeWs (s : JStr) : JStr := s.filter (fun c => !(isJsSpace c))

/-- ASCII fragment of `String.prototype.toLowerCase` (the only
characters reaching it here are ASCII). -/
def lowerCode (c : Nat) : Nat := if 65 ≤ c ∧ c ≤ 90 then c + 32 else c

/-- ASCII fragment of `String.prototype.toUpperCase`. -/
def upperCode (c : Nat) : Nat := if 97 ≤ c ∧ c ≤ 122 then c - 32 else c

/-- An ASCII letter. -/
def isAsciiLetter (c : Nat) : Bool :=
  (65 ≤ c && c ≤ 90) || (97 ≤ c && c ≤ 122)

/-- The character class of the validation regexes
`/^[A-Za-z' -]+$/` (last names) and `/^[A-Za-z'-]+$/` (first names). -/
def allowedNameChar (isLastName : Bool) (c : Nat) : Bool :=
  isAsciiLetter c || c = 39 || c = 45 || (isLastName && c = 32)

/-- The lowercase name particles of `formatName`. -/
def particles : List JStr :=
  [strToCodes ("de"), strToCodes ("del"), strToCodes ("la"),
   strToCodes ("las"), strToCodes ("los"), strToCodes ("da"),
   strToCodes ("das"), strToCodes ("dos"), strToCodes ("van"),
   strToCodes ("von"), strToCodes ("der"), strToCodes ("den"),
   strToCodes ("le"), strToCodes ("du"), strToCodes ("di")]

/-- `part.charAt(0).toUpperCase() + part.slice(1)`. -/
def capFirst : JStr → JStr
  | [] => []
  | c :: r => upperCode c :: r

/-- The inner `capitalize` of `formatName`: lowercase the word; keep
particles; in a word containing a hyphen, capitalize each
hyphen-delimited part; otherwise, in a word containing an apostrophe,
capitalize each apostrophe-delimited part; otherwise capitalize the
first character. -/
def capitalize (word : JStr) : JStr :=
  let lower := word.map lowerCode
  if particles.contains lower then lower
  else if lower.contains 45 then
    List.intercalate [45] ((lower.splitOn 45).map capFirst)
  else if lower.contains 39 then
    List.intercalate [39] ((lower.splitOn 39).map capFirst)
  else capFirst lower

/-- `formatName` (`src/js/utils.js`): trim, normalize whitespace,
validate the character class and length 1–30, split a last name on
spaces, capitalize each word, and re-join. -/
def formatName (rawName : JStr) (isLastName : Bool) : Option JStr :=
  let name0 := jsTrim rawName
  let name1 := if isLastName then collapseWs name0 else removeWs name0
  if name1 ≠ [] ∧ name1.all (allowedNameChar isLastName) then
    if name1.length < 1 ∨ 30 < name1.length then none
    else
      let parts := if isLastName then name1.splitOn 32 else [name1]
      some (List.intercalate [32] (parts.map capitalize))
  else none

/-- C4 counterexample: `formatName("o'brien-smith", true)` returns
`"O'brien-Smith"`, not the claimed `"O'Brien-Smith"` — in a word
containing a hyphen, the sub-part after an apostrophe is not
capitalized. -/
theorem c4_counterexample :
    formatName (strToCodes ("o'brien-smith")) true =
      some (strToCodes ("O'brien-Smith")) ∧
    strToCodes ("O'brien-Smith") ≠ strToCodes ("O'Brien-Smith") := by
  decide

/-- C4 (amended): `formatName("john", false)` returns `"John"` and
`formatName("o'brien-smith", true)` returns `"O'brien-Smith"`:
hyphen-delimited sub-parts are capitalized, but apostrophe-delimited
sub-parts are capitalized only in words containing no hyphen, so a save
with those two inputs stores the formatted name `"John O'brien-Smith"`. -/
theorem c4_formatName_amended :
    formatName (strToCodes ("john")) false = some (strToCodes ("John")) ∧
    formatName (strToCodes ("o'brien-smith")) true =
      some (strToCodes ("O'brien-Smith")) ∧
    strToCodes ("John") ++ (32 :: strToCodes ("O'brien-Smith")) =
      strToCodes ("John O'brien-Smith") := by
  decide

/-! ## C5: color validation (`isHexColor`, `pickColor`, `saveSettings`) -/

/-- A hex digit of either case (`[0-9a-fA-F]`). -/
def isHexDigitMixed (c : Nat) : Bool :=
  (48 ≤ c && c ≤ 57) || (97 ≤ c && c ≤ 102) || (65 ≤ c && c ≤ 70)

/-- The shape tested by `/^#([0-9a-fA-F]{3}|[0-9a-fA-F]{6})$/`. -/
def hexColorShape : JStr → Bool
  | c :: rest =>
    c == 35 && (rest.length == 3 || rest.length == 6) &&
      rest.all isHexDigitMixed
  | [] => false

/-- `isHexColor` (`src/js/utils.js` lines 83–85): the regex applied to
the trimmed value. -/
def isHexColor (value : JStr) : Bool := hexColorShape (jsTrim value)

/-- `pickColor` (`src/js/utils.js` lines 94–99). -/
def pickColor (textVal pickerVal fallback : JStr) : JStr :=
  let trimmed := jsTrim textVal
  if isHexColor trimmed then trimmed.map lowerCode
  else if isHexColor pickerVal then pickerVal.map lowerCode
  else fallback

/-- The color computations of `saveSettings` (settings module lines
177–186); colors never block a save, so these are the stored
`cardColor`/`bgColor` of every successful save. -/
def saveSettingsColors (cardText cardPicker bgText bgPicker : JStr) :
    JStr × JStr :=
  (pickColor cardText cardPicker (strToCodes ("#6366f1")),
   pickColor bgText bgPicker (strToCodes ("#6B46C1")))

/-- A lowercase hex digit (`[0-9a-f]`). -/
def isLowerHexDigit (c : Nat) : Bool :=
  (48 ≤ c && c ≤ 57) || (97 ≤ c && c ≤ 102)

/-- The claimed stored-color pattern `#[0-9a-f]{6}`. -/
def matchesSixLowerHex : JStr → Bool
  | c :: rest => c == 35 && rest.length == 6 && rest.all isLowerHexDigit
  | [] => false

/-- The pattern `#([0-9a-f]{3}|[0-9a-f]{6})`. -/
def matchesThreeOrSixLowerHex : JStr → Bool
  | c :: rest =>
    c == 35 && (rest.length == 3 || rest.length == 6) &&
      rest.all isLowerHexDigit
  | [] => false

/-- C5 counterexample: typing `#abc` into the card-color text input
stores `#abc` itself — `pickColor` never expands 3-digit colors — which
does not match `#[0-9a-f]{6}`. -/
theorem c5_counterexample :
    (saveSettingsColors (strToCodes ("#abc")) (strToCodes ("#000000"))
      (strToCodes ("#ffffff")) (strToCodes ("#ffffff"))).1 =
      strToCodes ("#abc") ∧
    matchesSixLowerHex
      (saveSettingsColors (strToCodes ("#abc")) (strToCodes ("#000000"))
        (strToCodes ("#ffffff")) (strToCodes ("#ffffff"))).1 = false := by
  decide

theorem dropWhile_isJsSpace_idem (l : JStr) :
    (l.dropWhile isJsSpace).dropWhile isJsSpace = l.dropWhile isJsSpace := by
  induction l with
  | nil => rfl
  | cons c r ih =>
    by_cases hc : isJsSpace c = true
    · simp [List.dropWhile_cons, hc, ih]
    · simp [List.dropWhile_cons, hc]

theorem trimEnd_cons (c : Nat) (r : JStr) :
    trimEnd (c :: r) =
      match trimEnd r with
      | [] => if isJsSpace c then [] else [c]
      | x :: xs => c :: x :: xs := rfl

theorem trimEnd_trimEnd (l : JStr) : trimEnd (trimEnd l) = trimEnd l := by
  induction l with
  | nil => rfl
  | cons c r ih =>
    rw [trimEnd_cons]
    cases h : trimEnd r with
    | nil =>
      by_cases hc : isJsSpace c = true
      · rw [if_pos hc]
        rfl
      · rw [if_neg hc]
        show trimEnd [c] = [c]
        rw [trimEnd_cons]
        exact if_neg hc
    | cons x xs =>
      rw [h] at ih
      show trimEnd (c :: x :: xs) = c :: x :: xs
      rw [trimEnd_cons, ih]

theorem dropWhile_trimEnd_dropWhile (l : JStr) :
    (trimEnd (l.dropWhile isJsSpace)).dropWhile isJsSpace =
      trimEnd (l.dropWhile isJsSpace) := by
  induction l with
  | nil => rfl
  | cons c r ih =>
    by_cases hc : isJsSpace c = true
    · rw [List.dropWhile_cons, if_pos hc]
      exact ih
    · rw [List.dropWhile_cons, if_neg hc]
      rw [trimEnd_cons]
      cases h : trimEnd r with
      | nil =>
        show List.dropWhile isJsSpace (if isJsSpace c = true then [] else [c]) =
          (if isJsSpace c = true then [] else [c])
        rw [if_neg hc, List.dropWhile_cons, if_neg hc]
      | cons x xs =>
        show List.dropWhile isJsSpace (c :: x :: xs) = c :: x :: xs
        rw [List.dropWhile_cons, if_neg hc]

theorem jsTrim_jsTrim (s : JStr) : jsTrim (jsTrim s) = jsTrim s := by
  unfold jsTrim
  rw [dropWhile_trimEnd_dropWhile, trimEnd_trimEnd]

theorem lowerHexDigit_of_mixed (c : Nat) (h : isHexDigitMixed c = true) :
    isLowerHexDigit (lowerCode c) = true := by
  unfold isHexDigitMixed at h
  unfold isLowerHexDigit lowerCode
  simp only [Bool.or_eq_true, Bool.and_eq_true, decide_eq_true_eq] at h ⊢
  split_ifs <;> omega

theorem lowerHex_of_hexShape (u : JStr) (h : hexColorShape u = true) :
    matchesThreeOrSixLowerHex (u.map lowerCode) = true := by
  cases u with
  | nil => simp [hexColorShape] at h
  | cons c rest =>
    simp only [hexColorShape, Bool.and_eq_true, Bool.or_eq_true,
      beq_iff_eq, List.all_eq_true] at h
    obtain ⟨⟨hc, hlen⟩, hall⟩ := h
    subst hc
    simp only [List.map_cons, matchesThreeOrSixLowerHex, Bool.and_eq_true,
      Bool.or_eq_true, beq_iff_eq, List.all_eq_true, List.length_map]
    refine ⟨⟨rfl, hlen⟩, ?_⟩
    intro x hx
    rcases List.mem_map.mp hx with ⟨y, hy, rfl⟩
    exact lowerHexDigit_of_mixed y (hall y hy)

/-- C5 (amended): whenever the color text input holds a syntactically
valid (3- or 6-digit, either case) hex color, the stored color is its
trimmed lowercase form and matches `#([0-9a-f]{3}|[0-9a-f]{6})`; the
6-digit-only guarantee of the claim fails because a 3-digit entry is
stored unexpanded (see the counterexample). -/
theorem c5_color_shape (textVal pickerVal fallback : JStr)
    (ht : isHexColor textVal = true) :
    pickColor textVal pickerVal fallback = (jsTrim textVal).map lowerCode ∧
    matchesThreeOrSixLowerHex (pickColor textVal pickerVal fallback) = true := by
  have hguard : isHexColor (jsTrim textVal) = true := by
    unfold isHexColor
    rw [jsTrim_jsTrim]
    exact ht
  have hpick : pickColor textVal pickerVal fallback =
      (jsTrim textVal).map lowerCode := by
    unfold pickColor
    rw [if_pos hguard]
  refine ⟨hpick, ?_⟩
  rw [hpick]
  exact lowerHex_of_hexShape (jsTrim textVal) ht

/-- C5 witness: the amended claim at the concrete input `#A1B2C3`. -/
theorem c5_color_shape_witness :
    isHexColor (strToCodes ("#A1B2C3")) = true ∧
    matchesThreeOrSixLowerHex
      (pickColor (strToCodes ("#A1B2C3")) (strToCodes ("#000000"))
        (strToCodes ("#6366f1"))) = true :=
  ⟨by decide,
   (c5_color_shape (strToCodes ("#A1B2C3")) (strToCodes ("#000000"))
     (strToCodes ("#6366f1")) (by decide)).2⟩

/-! ## C6/C7: the crop state machine (`setupCropListeners`, settings
module)

Coordinates and scales are modeled over `ℚ` (the algebraic content of
the handlers; the JavaScript engine computes with binary floating point,
whose rounding is outside this embedding's scope). -/

/-- The mutable `cropState` of the settings module: scale, image offset,
drag flag and drag anchor. -/
structure CropState where
  scale : ℚ
  posX : ℚ
  posY : ℚ
  isDragging : Bool
  dragStartX : ℚ
  dragStartY : ℚ
deriving DecidableEq

/-- The `container.onmousedown` handler (settings module lines 407–414):
unconditionally sets `isDragging` and records
`dragStart = client − position`. -/
def cropMouseDown (clientX clientY : ℚ) (s : CropState) : CropState :=
  { s with
    isDragging := true
    dragStartX := clientX - s.posX
    dragStartY := clientY - s.posY }

/-- The `touchstart` handler (settings module lines 429–437): identical
state update from the first touch point. -/
def cropTouchStart (clientX clientY : ℚ) (s : CropState) : CropState :=
  { s with
    isDragging := true
    dragStartX := clientX - s.posX
    dragStartY := clientY - s.posY }

/-- The `zoomSlider.oninput` handler (settings module lines 457–471):
`newScale = value/100`, `scaleDiff = newScale/scale`, and each offset
axis is reprojected with `center − (center − offset) × scaleDiff`
before `scale` is replaced. -/
def cropZoomInput (sliderValue containerWidth containerHeight : ℚ)
    (s : CropState) : CropState :=
  let newScale := sliderValue / 100
  let scaleDiff := newScale / s.scale
  let centerX := containerWidth / 2
  let centerY := containerHeight / 2
  { s with
    posX := centerX - (centerX - s.posX) * scaleDiff
    posY := centerY - (centerY - s.posY) * scaleDiff
    scale := newScale }

/-- C6: the zoom handler reprojects the offset with
`offset' = center − (center − offset) × (newScale / oldScale)` on each
axis and then sets `scale = newScale`; consequently the viewport-center
point is fixed in image space (`(center − offset)/scale` is unchanged)
whenever both scales are nonzero. -/
theorem c6_zoom_reprojection (v w h : ℚ) (s : CropState)
    (hs : s.scale ≠ 0) (hv : v ≠ 0) :
    (cropZoomInput v w h s).scale = v / 100 ∧
    (cropZoomInput v w h s).posX =
      w / 2 - (w / 2 - s.posX) * ((v / 100) / s.scale) ∧
    (cropZoomInput v w h s).posY =
      h / 2 - (h / 2 - s.posY) * ((v / 100) / s.scale) ∧
    (w / 2 - (cropZoomInput v w h s).posX) / (cropZoomInput v w h s).scale =
      (w / 2 - s.posX) / s.scale ∧
    (h / 2 - (cropZoomInput v w h s).posY) / (cropZoomInput v w h s).scale =
      (h / 2 - s.posY) / s.scale := by
  have hsc : (cropZoomInput v w h s).scale = v / 100 := rfl
  have hpx : (cropZoomInput v w h s).posX =
      w / 2 - (w / 2 - s.posX) * ((v / 100) / s.scale) := rfl
  have hpy : (cropZoomInput v w h s).posY =
      h / 2 - (h / 2 - s.posY) * ((v / 100) / s.scale) := rfl
  refine ⟨hsc, hpx, hpy, ?_, ?_⟩
  · rw [hpx, hsc]
    field_simp
    ring
  · rw [hpy, hsc]
    field_simp
    ring

/-- C6 witness: the reprojection at slider value 200 on a concrete
state. -/
theorem c6_zoom_reprojection_witness :
    (cropZoomInput 200 300 300 ⟨1, 30, 40, false, 0, 0⟩).scale = 2 ∧
    (cropZoomInput 200 300 300 ⟨1, 30, 40, false, 0, 0⟩).posX = -90 ∧
    (cropZoomInput 200 300 300 ⟨1, 30, 40, false, 0, 0⟩).posY = -70 := by
  have h := c6_zoom_reprojection 200 300 300 ⟨1, 30, 40, false, 0, 0⟩
    (by norm_num) (by norm_num)
  obtain ⟨h1, h2, h3, _, _⟩ := h
  refine ⟨by rw [h1]; norm_num, by rw [h2]; norm_num, by rw [h3]; norm_num⟩

/-- A crop state in mid-drag with a nonzero anchor. -/
def dragState : CropState := ⟨1, 0, 0, true, 5, 5⟩

/-- C7 counterexample: with a drag already in progress
(`isDragging = true`, anchor (5,5)), a mouse-down at the origin is not a
no-op — it overwrites the drag anchor with (0,0). -/
theorem c7_counterexample :
    dragState.isDragging = true ∧
    (cropMouseDown 0 0 dragState).dragStartX ≠ dragState.dragStartX := by
  constructor
  · rfl
  · show (0 : ℚ) - 0 ≠ 5
    norm_num

/-- C7 (amended): `beginDrag` (mouse-down or touch-start) leaves the
position and scale unchanged, but it is not a no-op while a drag is in
progress: it always sets `isDragging` and re-records the drag anchor as
`pointer − offset`, even when `isDragging` is already true. -/
theorem c7_begin_drag (x y : ℚ) (s : CropState) :
    ((cropMouseDown x y s).posX = s.posX ∧
     (cropMouseDown x y s).posY = s.posY ∧
     (cropMouseDown x y s).scale = s.scale ∧
     (cropMouseDown x y s).isDragging = true ∧
     (cropMouseDown x y s).dragStartX = x - s.posX ∧
     (cropMouseDown x y s).dragStartY = y - s.posY) ∧
    cropTouchStart x y s = cropMouseDown x y s :=
  ⟨⟨rfl, rfl, rfl, rfl, rfl, rfl⟩, rfl⟩

/-! ## C8/C10: the contact store (`src/js/storage.js`)

The stored contact list (the `savedContacts` localStorage value) is the
explicit state; storage writes succeed (the quota-failure path of
`saveSavedContacts` is orthogonal to the dedup/bounds logic under
test). -/

/-- A saved contact (the fields the store inspects). -/
structure Contact where
  firstName : String
  lastName : String
  email : String
  savedAt : String
deriving DecidableEq

/-- The duplicate test of `addContact`: equality of the
(firstName, lastName, email) triple. -/
def sameTriple (c contact : Contact) : Bool :=
  c.firstName == contact.firstName && c.lastName == contact.lastName &&
  c.email == contact.email

/-- `addContact` (`src/js/storage.js` lines 84–103): report failure and
leave the list unchanged on a duplicate triple; otherwise stamp
`savedAt` (with the current time `now`) and append. -/
def addContact (contact : Contact) (now : String) (contacts : List Contact) :
    Bool × List Contact :=
  if contacts.any (fun c => sameTriple c contact) then (false, contacts)
  else (true, contacts ++ [{ contact with savedAt := now }])

/-- C8: adding a contact whose (firstName, lastName, email) triple
matches an existing entry returns false and leaves the stored list
unchanged; in particular a second add of the same contact reports
failure and leaves the length unchanged. -/
theorem c8_contact_dedup (contacts : List Contact) (contact : Contact)
    (now now2 : String) :
    ((∃ c ∈ contacts, sameTriple c contact = true) →
      addContact contact now contacts = (false, contacts)) ∧
    (addContact contact now2 (addContact contact now contacts).2).1 = false ∧
    ((addContact contact now2 (addContact contact now contacts).2).2).length =
      ((addContact contact now contacts).2).length := by
  have hdup : ∀ l : List Contact, (∃ c ∈ l, sameTriple c contact = true) →
      addContact contact now2 l = (false, l) := by
    intro l hl
    unfold addContact
    rw [if_pos (List.any_eq_true.mpr (by simpa using hl))]
  constructor
  · intro hl
    unfold addContact
    rw [if_pos (List.any_eq_true.mpr (by simpa using hl))]
  · by_cases h : contacts.any (fun c => sameTriple c contact) = true
    · have h1 : addContact contact now contacts = (false, contacts) := by
        unfold addContact
        rw [if_pos h]
      have h2 := hdup contacts (by simpa using h)
      rw [h1, h2]
      exact ⟨rfl, rfl⟩
    · have h1 : addContact contact now contacts =
          (true, contacts ++ [{ contact with savedAt := now }]) := by
        unfold addContact
        rw [if_neg h]
      have hmem : ∃ c ∈ contacts ++ [{ contact with savedAt := now }],
          sameTriple c contact = true := by
        refine ⟨{ contact with savedAt := now }, by simp, ?_⟩
        simp [sameTriple]
      have h2 := hdup _ hmem
      rw [h1, h2]
      exact ⟨rfl, rfl⟩

/-- C8 witness: a concrete duplicate add is rejected and a double add
keeps length 1. -/
theorem c8_contact_dedup_witness :
    addContact ⟨"Ada", "Lovelace", "ada@b.co", ""⟩ "t2"
        [⟨"Ada", "Lovelace", "ada@b.co", "t1"⟩] =
      (false, [⟨"Ada", "Lovelace", "ada@b.co", "t1"⟩]) ∧
    (addContact ⟨"Ada", "Lovelace", "ada@b.co", ""⟩ "t2"
      (addContact ⟨"Ada", "Lovelace", "ada@b.co", ""⟩ "t1" []).2).2.length =
      (addContact ⟨"Ada", "Lovelace", "ada@b.co", ""⟩ "t1" []).2.length :=
  ⟨(c8_contact_dedup [⟨"Ada", "Lovelace", "ada@b.co", "t1"⟩]
      ⟨"Ada", "Lovelace", "ada@b.co", ""⟩ "t2" "t2").1
    ⟨⟨"Ada", "Lovelace", "ada@b.co", "t1"⟩, by simp, by decide⟩,
   (c8_contact_dedup [] ⟨"Ada", "Lovelace", "ada@b.co", ""⟩ "t1" "t2").2.2⟩

/-- `contacts.splice(index, 1)`: remove the single element at `index`. -/
def spliceRemoveAt : Nat → List Contact → List Contact
  | _, [] => []
  | 0, _ :: rest => rest
  | n + 1, x :: rest => x :: spliceRemoveAt n rest

/-- `removeContact` (`src/js/storage.js` lines 110–119): reject an
out-of-range index, otherwise splice out the element and save. -/
def removeContact (index : Int) (contacts : List Contact) :
    Bool × List Contact :=
  if index < 0 ∨ (contacts.length : Int) ≤ index then (false, contacts)
  else (true, spliceRemoveAt index.toNat contacts)

theorem spliceRemoveAt_eq :
    ∀ (n : Nat) (l : List Contact),
      spliceRemoveAt n l = l.take n ++ l.drop (n + 1)
  | _, [] => by simp [spliceRemoveAt]
  | 0, x :: rest => by simp [spliceRemoveAt]
  | n + 1, x :: rest => by
    rw [spliceRemoveAt, spliceRemoveAt_eq n rest]
    simp

/-- C10: `removeContact` with a negative or too-large index returns
false and leaves the list unchanged; with a valid index it returns true
and removes exactly the element at that index (the result is
`take index ++ drop (index+1)`), decreasing the length by one. -/
theorem c10_remove_contact (contacts : List Contact) (index : Int) :
    ((index < 0 ∨ (contacts.length : Int) ≤ index) →
      removeContact index contacts = (false, contacts)) ∧
    (0 ≤ index → index < (contacts.length : Int) →
      removeContact index contacts =
        (true, contacts.take index.toNat ++ contacts.drop (index.toNat + 1)) ∧
      (removeContact index contacts).2.length + 1 = contacts.length) := by
  constructor
  · intro h
    unfold removeContact
    rw [if_pos h]
  · intro h0 hlt
    have hr : removeContact index contacts =
        (true, spliceRemoveAt index.toNat contacts) := by
      unfold removeContact
      rw [if_neg (by omega)]
    have hn : index.toNat < contacts.length := by omega
    constructor
    · rw [hr, spliceRemoveAt_eq]
    · rw [hr, spliceRemoveAt_eq]
      simp only [List.length_append, List.length_take, List.length_drop]
      omega

/-- C10 witness: both branches at concrete inputs — index 5 on a
one-element list is rejected; index 0 on a two-element list removes the
head. -/
theorem c10_remove_contact_witness :
    removeContact 5 [⟨"A", "B", "a@b.co", ""⟩] =
      (false, [⟨"A", "B", "a@b.co", ""⟩]) ∧
    removeContact 0 [⟨"A", "B", "a@b.co", ""⟩, ⟨"C", "D", "c@d.co", ""⟩] =
      (true, [⟨"C", "D", "c@d.co", ""⟩]) :=
  ⟨(c10_remove_contact [⟨"A", "B", "a@b.co", ""⟩] 5).1 (by right; decide),
   ((c10_remove_contact [⟨"A", "B", "a@b.co", ""⟩, ⟨"C", "D", "c@d.co", ""⟩] 0).2
     (by decide) (by decide)).1⟩

/-! ## C9: `formatPhone` / `parsePrettyPhone10` (`src/js/utils.js`) -/

/-- An ASCII digit (`\d`). -/
def isDigitCode (c : Nat) : Bool := 48 ≤ c && c ≤ 57

/-- `formatPhone` (`src/js/utils.js` lines 240–244): the pretty form
`+CC (abc) def-ghij` and the E.164 form `+CClocal`. -/
def formatPhone (countryCode localNum : JStr) : JStr × JStr :=
  (43 :: (countryCode ++ (32 :: 40 :: (localNum.take 3 ++
     (41 :: 32 :: ((localNum.drop 3).take 3 ++ (45 :: localNum.drop 6)))))),
   43 :: (countryCode ++ localNum))

/-- Take exactly `k` digits from the front. -/
def takeDigits (k : Nat) (s : JStr) : Option (JStr × JStr) :=
  if (s.take k).length = k ∧ (s.take k).all isDigitCode then
    some (s.take k, s.drop k)
  else none

/-- Expect one specific character. -/
def expectCode (c : Nat) : JStr → Option JStr
  | x :: r => if x = c then some r else none
  | [] => none

/-- Match the part of `parsePrettyPhone10`'s regex
`^\+?(\d{1,3})\s*\((\d{3})\)\s*(\d{3})-(\d{4})$` after the optional `+`,
with a country code of exactly `k` digits: `\s*` is greedy whitespace
(safe, since neither `(` nor a digit is whitespace), and the match is
anchored at the end. -/
def parseTail (k : Nat) (s1 : JStr) : Option (JStr × JStr × JStr) := do
  let (ccd, r) ← takeDigits k s1
  let r ← expectCode 40 (r.dropWhile isJsSpace)
  let (d1, r) ← takeDigits 3 r
  let r ← expectCode 41 r
  let (d2, r) ← takeDigits 3 (r.dropWhile isJsSpace)
  let r ← expectCode 45 r
  let (d3, r) ← takeDigits 4 r
  if r = [] then
    pure (ccd, d1 ++ d2 ++ d3, 40 :: (d1 ++ (41 :: 45 :: (d2 ++ (45 :: d3)))))
  else none

/-- `parsePrettyPhone10` (`src/js/utils.js` lines 268–280): strip an
optional leading `+`, then match the greedy `(\d{1,3})` with regex
backtracking (3 digits first, then 2, then 1) against the anchored
remainder, returning the captured country code, the 10-digit localNum
number, and the `(abc)-def-ghij` display form. -/
def parsePrettyPhone10 (s : JStr) : Option (JStr × JStr × JStr) :=
  let s1 := match s with
    | c :: r => if c = 43 then r else c :: r
    | [] => []
  (parseTail 3 s1).orElse fun _ =>
    (parseTail 2 s1).orElse fun _ => parseTail 1 s1

theorem not_space_of_digit (c : Nat) (h : isDigitCode c = true) :
    isJsSpace c = false := by
  unfold isDigitCode at h
  unfold isJsSpace
  simp only [Bool.and_eq_true, decide_eq_true_eq] at h
  simp only [Bool.or_eq_false_iff, decide_eq_false_iff_not]
  omega

set_option maxHeartbeats 1600000 in
/-- C9: for a country code of one to three digits and a ten-digit local
number, `parsePrettyPhone10` applied to `formatPhone`'s pretty form
succeeds and recovers the same country code and local number. -/
theorem c9_phone_roundtrip (cc localNum : JStr)
    (hcc1 : 1 ≤ cc.length) (hcc3 : cc.length ≤ 3)
    (hccd : ∀ c ∈ cc, isDigitCode c = true)
    (hlen : localNum.length = 10)
    (hld : ∀ c ∈ localNum, isDigitCode c = true) :
    (parsePrettyPhone10 (formatPhone cc localNum).1).map
      (fun t => (t.1, t.2.1)) = some (cc, localNum) := by
  rcases localNum with _ | ⟨l0, localNum⟩
  · simp only [List.length_nil] at hlen
    omega
  rcases localNum with _ | ⟨l1, localNum⟩
  · simp only [List.length_cons, List.length_nil] at hlen
    omega
  rcases localNum with _ | ⟨l2, localNum⟩
  · simp only [List.length_cons, List.length_nil] at hlen
    omega
  rcases localNum with _ | ⟨l3, localNum⟩
  · simp only [List.length_cons, List.length_nil] at hlen
    omega
  rcases localNum with _ | ⟨l4, localNum⟩
  · simp only [List.length_cons, List.length_nil] at hlen
    omega
  rcases localNum with _ | ⟨l5, localNum⟩
  · simp only [List.length_cons, List.length_nil] at hlen
    omega
  rcases localNum with _ | ⟨l6, localNum⟩
  · simp only [List.length_cons, List.length_nil] at hlen
    omega
  rcases localNum with _ | ⟨l7, localNum⟩
  · simp only [List.length_cons, List.length_nil] at hlen
    omega
  rcases localNum with _ | ⟨l8, localNum⟩
  · simp only [List.length_cons, List.length_nil] at hlen
    omega
  rcases localNum with _ | ⟨l9, localNum⟩
  · simp only [List.length_cons, List.length_nil] at hlen
    omega
  have hnil : localNum = [] := by
    have hz : localNum.length = 0 := by
      simp only [List.length_cons] at hlen
      omega
    exact List.eq_nil_of_length_eq_zero hz
  subst hnil
  have h0 : isDigitCode l0 = true := hld l0 (by simp)
  have h1 : isDigitCode l1 = true := hld l1 (by simp)
  have h2 : isDigitCode l2 = true := hld l2 (by simp)
  have h3 : isDigitCode l3 = true := hld l3 (by simp)
  have h4 : isDigitCode l4 = true := hld l4 (by simp)
  have h5 : isDigitCode l5 = true := hld l5 (by simp)
  have h6 : isDigitCode l6 = true := hld l6 (by simp)
  have h7 : isDigitCode l7 = true := hld l7 (by simp)
  have h8 : isDigitCode l8 = true := hld l8 (by simp)
  have h9 : isDigitCode l9 = true := hld l9 (by simp)
  have h3s := not_space_of_digit l3 h3
  have e1 : isDigitCode 32 = false := rfl
  have e2 : isDigitCode 40 = false := rfl
  have e3 : isDigitCode 41 = false := rfl
  have e4 : isDigitCode 45 = false := rfl
  have e5 : isJsSpace 32 = true := rfl
  have e6 : isJsSpace 40 = false := rfl
  rcases cc with _ | ⟨c0, cc⟩
  · simp only [List.length_nil] at hcc1
    omega
  rcases cc with _ | ⟨c1, cc⟩
  · have hc0 : isDigitCode c0 = true := hccd c0 (by simp)
    have hc0s := not_space_of_digit c0 hc0
    simp [parsePrettyPhone10, formatPhone, parseTail, takeDigits, expectCode,
      Option.orElse, h0, h1, h2, h3, h4, h5, h6, h7, h8, h9, hc0, h3s, hc0s,
      e1, e2, e3, e4, e5, e6]
  rcases cc with _ | ⟨c2, cc⟩
  · have hc0 : isDigitCode c0 = true := hccd c0 (by simp)
    have hc1 : isDigitCode c1 = true := hccd c1 (by simp)
    have hc0s := not_space_of_digit c0 hc0
    have hc1s := not_space_of_digit c1 hc1
    simp [parsePrettyPhone10, formatPhone, parseTail, takeDigits, expectCode,
      Option.orElse, h0, h1, h2, h3, h4, h5, h6, h7, h8, h9, hc0, hc1,
      h3s, hc0s, hc1s, e1, e2, e3, e4, e5, e6]
  rcases cc with _ | ⟨c3, cc⟩
  · have hc0 : isDigitCode c0 = true := hccd c0 (by simp)
    have hc1 : isDigitCode c1 = true := hccd c1 (by simp)
    have hc2 : isDigitCode c2 = true := hccd c2 (by simp)
    have hc0s := not_space_of_digit c0 hc0
    have hc1s := not_space_of_digit c1 hc1
    have hc2s := not_space_of_digit c2 hc2
    simp [parsePrettyPhone10, formatPhone, parseTail, takeDigits, expectCode,
      Option.orElse, h0, h1, h2, h3, h4, h5, h6, h7, h8, h9, hc0, hc1, hc2,
      h3s, hc0s, hc1s, hc2s, e1, e2, e3, e4, e5, e6]
  · simp only [List.length_cons] at hcc3
    omega

/-- C9 witness: the round trip at country code `353` and localNum number
`5551234567`. -/
theorem c9_phone_roundtrip_witness :
    (parsePrettyPhone10
      (formatPhone (strToCodes ("353")) (strToCodes ("5551234567"))).1).map
      (fun t => (t.1, t.2.1)) =
      some (strToCodes ("353"), strToCodes ("5551234567")) :=
  c9_phone_roundtrip (strToCodes ("353")) (strToCodes ("5551234567"))
    (by decide) (by decide) (by decide) (by decide) (by decide)
